import Mathlib

/-!
Verification development for the lobsters-graph scraper.

The Python sources are shallowly embedded:
* `parse_tree.py` — the nested `<ul class="user_tree">` parser, over a DOM
  model (`Node`/`NodeList`) that mirrors what BeautifulSoup exposes to the
  code (tag name, attributes, children, text content).
* `db.py` — the `users` table and `upsert_user` (per-field
  `COALESCE(excluded.f, f)` semantics) as a keyed functional store.
* `enrich.py` — `build_search_query`, the candidate-merge loop of
  `enrich_user`, and `save_enrichment` (full-overwrite upsert).
* `scrape.py` — the link-classification loop of `parse_user_profile`.

Python string/regex operations are modelled by explicit character-list
functions (`strStarts`, `strHas`, `searchKarma`, ...), each a direct
transcription of the corresponding regex or method call.
-/

namespace Lob

/-! ## Character and string helpers (models of Python str and regex operations) -/

/-- `strStarts pat cs` : `cs` begins with `pat` (model of an anchored regex or
`str.startswith`). -/
def strStarts : List Char → List Char → Bool
  | [], _ => true
  | _ :: _, [] => false
  | a :: as, b :: bs => a == b && strStarts as bs

/-- `strHas cs pat` : `pat` occurs as a contiguous substring of `cs`
(model of Python `pat in s`). -/
def strHas : List Char → List Char → Bool
  | [], pat => strStarts pat []
  | c :: cs, pat => strStarts pat (c :: cs) || strHas cs pat

/-- Substring test on strings (Python `pat in s`). -/
def sHas (s pat : String) : Bool := strHas s.data pat.data

/-- Python `str.lower()` (ASCII-adequate model). -/
def sLower (s : String) : String := String.mk (s.data.map Char.toLower)

/-- Python `\s` character class: space, tab, newline, carriage return,
vertical tab, form feed. -/
def isPySpace (c : Char) : Bool :=
  c == ' ' || c == '\t' || c == '\n' || c == '\r' || c == '\x0b' || c == '\x0c'

/-- Numeric value of a digit run (model of Python `int` applied to a `\d+` match). -/
def digitsToNat (ds : List Char) : Nat :=
  ds.foldl (fun a c => 10 * a + (c.toNat - '0'.toNat)) 0

/-- Worker for `replaceAll`: `skip` counts characters still to be consumed by
an occurrence already replaced (so occurrences never overlap, as in Python). -/
def replaceGo (pat rep : List Char) : Nat → List Char → List Char
  | _, [] => []
  | Nat.succ k, _ :: cs => replaceGo pat rep k cs
  | 0, c :: cs =>
      if strStarts pat (c :: cs) && pat.length != 0 then
        rep ++ replaceGo pat rep (pat.length - 1) cs
      else
        c :: replaceGo pat rep 0 cs

/-- Python `str.replace(pat, rep)`: replace every non-overlapping occurrence of
`pat` (non-empty at every call site) left to right. -/
def replaceAll (pat rep cs : List Char) : List Char :=
  replaceGo pat rep 0 cs

/-- Python `s.replace(pat, rep)` on `String`. -/
def sReplace (s pat rep : String) : String :=
  String.mk (replaceAll pat.data rep.data s.data)

/-- Python truthiness-based `x or y` for an optional string: `None` and `""`
are falsy. -/
def pyOr (o : Option String) (d : String) : String :=
  match o with
  | some s => if s = "" then d else s
  | none => d

/-- One attempt of the karma regex `username\s*\((\d+)\)` at the head of `cs`
(the username part is matched literally, as `re.escape` guarantees). -/
def karmaAt (u cs : List Char) : Option Nat :=
  if strStarts u cs then
    match (cs.drop u.length).dropWhile isPySpace with
    | '(' :: r =>
        match r.takeWhile Char.isDigit, r.dropWhile Char.isDigit with
        | [], _ => none
        | ds, ')' :: _ => some (digitsToNat ds)
        | _, _ => none
    | _ => none
  else none

/-- `re.search` of the karma pattern: leftmost position where `karmaAt`
succeeds (model of `re.search(rf"{re.escape(username)}\s*\((\d+)\)", text)`). -/
def searchKarma (u : List Char) : List Char → Option Nat
  | [] => none
  | c :: cs =>
      match karmaAt u (c :: cs) with
      | some k => some k
      | none => searchKarma u cs

/-! ## DOM model

A parsed document as BeautifulSoup presents it to `parse_tree.py`: element
nodes with a tag, attributes and children, and text nodes.  `NodeList` is a
specialised list so that all recursions are structural. -/

mutual
inductive Node where
  | elem (tag : String) (attrs : List (String × String)) (children : NodeList)
  | text (s : String)
deriving DecidableEq
inductive NodeList where
  | nil
  | cons (n : Node) (ns : NodeList)
deriving DecidableEq
end

def nodeTag : Node → String
  | .elem t _ _ => t
  | .text _ => ""

/-- `tag.get(key)`: first attribute with the given name. -/
def attr? (n : Node) (k : String) : Option String :=
  match n with
  | .elem _ attrs _ => (attrs.find? (fun p => p.1 == k)).map (fun p => p.2)
  | .text _ => none

/-- Worker for `pySplitWs`: `cur` holds the reversed characters of the word
being read. -/
def splitWsGo (cur : List Char) : List Char → List String
  | [] => if cur.isEmpty then [] else [String.mk cur.reverse]
  | c :: cs =>
      if isPySpace c then
        if cur.isEmpty then splitWsGo [] cs
        else String.mk cur.reverse :: splitWsGo [] cs
      else splitWsGo (c :: cur) cs

/-- Python `str.split()` with no argument: whitespace-separated words. -/
def pySplitWs (s : String) : List String := splitWsGo [] s.data

/-- `tag.get("class", [])` as BeautifulSoup returns it: the `class` attribute
split into whitespace-separated words. -/
def classListOf (n : Node) : List String :=
  match attr? n "class" with
  | some c => pySplitWs c
  | none => []

mutual
/-- `get_text()` of a node: concatenation of all descendant text. -/
def getTextN : Node → String
  | .text s => s
  | .elem _ _ cs => getTextL cs
/-- `get_text()` over a child list. -/
def getTextL : NodeList → String
  | .nil => ""
  | .cons n ns => getTextN n ++ getTextL ns
end

mutual
/-- `tag.find(pred)` (recursive): first descendant satisfying `pred`, pre-order. -/
def findRecN (p : Node → Bool) : Node → Option Node
  | .text _ => none
  | .elem _ _ cs => findRecL p cs
/-- `find` over a node list: each node itself, then its descendants, then the rest. -/
def findRecL (p : Node → Bool) : NodeList → Option Node
  | .nil => none
  | .cons n rest =>
      if p n then some n
      else
        match findRecN p n with
        | some m => some m
        | none => findRecL p rest
end

/-- First node of a list satisfying `p` (helper for `recursive=False` find). -/
def firstMatch (p : Node → Bool) : NodeList → Option Node
  | .nil => none
  | .cons n rest => if p n then some n else firstMatch p rest

/-- `tag.find(pred, recursive=False)`: first direct child satisfying `pred`. -/
def findDirect (p : Node → Bool) (n : Node) : Option Node :=
  match n with
  | .text _ => none
  | .elem _ _ cs => firstMatch p cs

/-! ## Embedding of `parse_tree.py` -/

/-- The predicate of `find("a", href=re.compile(r"^/~"))`: an `<a>` element
whose `href` attribute exists and starts with `/~`. -/
def isUserAnchor (n : Node) : Bool :=
  nodeTag n == "a" &&
    (match attr? n "href" with
     | some h => strStarts "/~".data h.data
     | none => false)

/-- The predicate of `find("ul", class_="user_tree")`. -/
def isUserTreeUl (n : Node) : Bool :=
  nodeTag n == "ul" && (classListOf n).contains "user_tree"

/-- `parse_li`, lines 27-33: the direct-child search for the user anchor, then
the recursive fallback search. -/
def findLink (li : Node) : Option Node :=
  match findDirect isUserAnchor li with
  | some l => some l
  | none => findRecN isUserAnchor li

/-- One reconstructed fact, as appended to `users` in `parse_li`. -/
structure UserFact where
  username : String
  karma : Nat
  invited_by_username : Option String
  is_inactive : Bool
deriving DecidableEq

mutual
/-- `parse_li(li_element, parent_username)` of `parse_tree.py`: extract the
anchor, username (name attribute, else href with `/~` stripped), karma
(regex on the element text, default 0), inactive flag; then recurse into the
first directly nested `<ul class="user_tree">`. -/
def parse_li (li : Node) (parent : Option String) : List UserFact :=
  match li with
  | .text _ => []
  | .elem t a cs =>
      match findLink (.elem t a cs) with
      | none => []
      | some link =>
          let username :=
            pyOr (attr? link "name")
              (sReplace ((attr? link "href").getD "") "/~" "")
          let karma := (searchKarma username.data (getTextN (.elem t a cs)).data).getD 0
          let inactive := (classListOf link).contains "inactive_user"
          { username := username, karma := karma,
            invited_by_username := parent, is_inactive := inactive }
            :: parseNested cs username
/-- The `nested_ul = li_element.find("ul", class_="user_tree", recursive=False)`
step: scan the direct children for the first matching `<ul>` and descend. -/
def parseNested (ns : NodeList) (u : String) : List UserFact :=
  match ns with
  | .nil => []
  | .cons (.text _) rest => parseNested rest u
  | .cons (.elem t a cs) rest =>
      if isUserTreeUl (.elem t a cs) then parseLis cs (some u)
      else parseNested rest u
/-- `for child_li in nested_ul.find_all("li", recursive=False): parse_li(...)`. -/
def parseLis (ls : NodeList) (parent : Option String) : List UserFact :=
  match ls with
  | .nil => []
  | .cons n rest =>
      (if nodeTag n == "li" then parse_li n parent else []) ++ parseLis rest parent
end

/-- `parse_users_tree(html)`: find the main `<ul class="user_tree">` anywhere in
the document (empty result if absent), then parse each of its direct `<li>`
children with no parent. -/
def parse_users_tree (doc : NodeList) : List UserFact :=
  match findRecL isUserTreeUl doc with
  | none => []
  | some (.text _) => []
  | some (.elem _ _ cs) => parseLis cs none

/-! ## Embedding of `db.py` -/

/-- One row of the `users` table (the `username` key is held by the table). -/
@[ext]
structure UserRow where
  karma : Option Int
  about : Option String
  created_at : Option String
  invited_by_username : Option String
  github_username : Option String
  twitter_username : Option String
  website : Option String
  scraped_at : Option String
deriving DecidableEq

/-- The `users` table, keyed by its unique `username` column. -/
def UserTable := String → Option UserRow

/-- SQL `COALESCE(a, b)`: the first non-null argument. -/
def coalesce (a b : Option α) : Option α :=
  match a with
  | some x => some x
  | none => b

/-- `upsert_user` of `db.py`: INSERT the provided values, or on username
conflict update every column to `COALESCE(excluded.column, column)` — the
provided (excluded) value when non-null, else the stored one. -/
def upsert_user (t : UserTable) (username : String) (karma : Option Int)
    (about created_at invited_by_username github_username twitter_username
     website scraped_at : Option String) : UserTable :=
  fun u =>
    if u = username then
      match t username with
      | none =>
          some { karma := karma, about := about, created_at := created_at,
                 invited_by_username := invited_by_username,
                 github_username := github_username,
                 twitter_username := twitter_username,
                 website := website, scraped_at := scraped_at }
      | some old =>
          some { karma := coalesce karma old.karma,
                 about := coalesce about old.about,
                 created_at := coalesce created_at old.created_at,
                 invited_by_username :=
                   coalesce invited_by_username old.invited_by_username,
                 github_username :=
                   coalesce github_username old.github_username,
                 twitter_username :=
                   coalesce twitter_username old.twitter_username,
                 website := coalesce website old.website,
                 scraped_at := coalesce scraped_at old.scraped_at }
    else t u

/-- The ingestion loop of `parse_tree.py` `main`: for each reconstructed fact,
`upsert_user(username=..., karma=..., invited_by_username=...)` with every
other column left at its `None` default. -/
def ingestFacts (t : UserTable) (facts : List UserFact) : UserTable :=
  facts.foldl
    (fun t f =>
      upsert_user t f.username (some (Int.ofNat f.karma)) none none
        f.invited_by_username none none none none)
    t

/-- The all-null user row (the row an ingestion upsert conceptually starts
from when the username is absent). -/
def emptyRow : UserRow :=
  { karma := none, about := none, created_at := none,
    invited_by_username := none, github_username := none,
    twitter_username := none, website := none, scraped_at := none }

/-- The effect of one ingestion upsert on the row stored under the fact's
username: karma is always provided (so always overwritten), the inviter is
coalesced, every other column is provided as null (so kept). -/
def rowApply (o : UserRow) (f : UserFact) : UserRow :=
  { karma := some (Int.ofNat f.karma), about := o.about,
    created_at := o.created_at,
    invited_by_username := coalesce f.invited_by_username o.invited_by_username,
    github_username := o.github_username,
    twitter_username := o.twitter_username, website := o.website,
    scraped_at := o.scraped_at }

/-- `rowApply` lifted to an optional stored row (insert-or-update). -/
def rowStep (o : Option UserRow) (f : UserFact) : Option UserRow :=
  some (rowApply (o.getD emptyRow) f)

/-- `rowApply` folded over a fact sequence. -/
def rowFold (o : UserRow) (fs : List UserFact) : UserRow :=
  fs.foldl rowApply o

/-! ## Embedding of `enrich.py` -/

/-- One row of the `enrichment` table (the `username` key is held by the
table; `other_urls` and `raw_response` are stored as serialized strings). -/
@[ext]
structure EnrRow where
  full_name : Option String
  linkedin_url : Option String
  github_url : Option String
  twitter_url : Option String
  company : Option String
  title : Option String
  location : Option String
  bio : Option String
  other_urls : Option String
  raw_response : Option String
  enriched_at : Option String
deriving DecidableEq

/-- The `enrichment` table, keyed by its unique `username` column. -/
def EnrTable := String → Option EnrRow

/-- `save_enrichment` of `enrich.py`: INSERT, or on username conflict update
every column to the excluded (new) value — a full overwrite. -/
def save_enrichment (t : EnrTable) (username : String) (e : EnrRow) : EnrTable :=
  fun u =>
    if u = username then
      some
        (match t username with
         | none => e
         | some _ =>
             { full_name := e.full_name, linkedin_url := e.linkedin_url,
               github_url := e.github_url, twitter_url := e.twitter_url,
               company := e.company, title := e.title,
               location := e.location, bio := e.bio,
               other_urls := e.other_urls, raw_response := e.raw_response,
               enriched_at := e.enriched_at })
    else t u

/-- Python truthiness of an optional string: `None` and `""` are falsy. -/
def pyTruthy (o : Option String) : Bool :=
  match o with
  | some s => !(s == "")
  | none => false

/-- Python `s[:n]` on characters. -/
def pyTake (s : String) (n : Nat) : String := String.mk (s.data.take n)

/-- Python `" ".join(parts)`. -/
def joinSpace : List String → String
  | [] => ""
  | [x] => x
  | x :: xs => x ++ " " ++ joinSpace xs

/-- The slice of a user row that `build_search_query` reads. -/
structure DbUser where
  username : String
  about : Option String
  github_username : Option String
  twitter_username : Option String
  website : Option String
deriving DecidableEq

/-- `build_search_query(user)` of `enrich.py`: gather the github / twitter /
website terms; if none, fall back to username plus a 100-character bio
snippet when the bio has at least 20 characters, else no query; append the
generic qualifier when there is exactly one term and the lower-cased query
contains none of "github", "twitter", "@". -/
def build_search_query (user : DbUser) : Option String :=
  let about := pyOr user.about ""
  let parts : List String :=
    (if pyTruthy user.github_username then
       ["github.com/" ++ user.github_username.getD ""] else [])
    ++ (if pyTruthy user.twitter_username then
          ["@" ++ user.twitter_username.getD ""] else [])
    ++ (if pyTruthy user.website then [user.website.getD ""] else [])
  let parts :=
    if parts = [] then
      if about.length < 20 then []
      else [user.username ++ " " ++ sReplace (pyTake about 100) "\n" " "]
    else parts
  if parts = [] then none
  else
    let query := joinSpace parts
    if parts.length == 1
        && !(sHas (sLower query) "github" || sHas (sLower query) "twitter"
              || sHas (sLower query) "@") then
      some (query ++ " software engineer developer")
    else some query

/-- One Exa search result as the merge loop of `enrich_user` reads it. -/
structure ExaResult where
  url : String
  title : Option String
deriving DecidableEq

/-- The enrichment fields assigned by the merge loop of `enrich_user`
(`company`, `title`, `location`, `bio` are never assigned there and stay
`None`; `username`, `raw_response`, `enriched_at` are metadata set outside
the loop). -/
@[ext]
structure EnrichFields where
  full_name : Option String
  linkedin_url : Option String
  github_url : Option String
  twitter_url : Option String
  other_urls : List String
deriving DecidableEq

/-- The initial enrichment dict of `enrich_user`. -/
def initEnrich : EnrichFields :=
  { full_name := none, linkedin_url := none, github_url := none,
    twitter_url := none, other_urls := [] }

/-- Python `title.split(" - ")[0]`: the part before the first occurrence of
the separator (the whole string when the separator is absent). -/
def takeBefore (pat : List Char) : List Char → List Char
  | [] => []
  | c :: cs => if strStarts pat (c :: cs) then [] else c :: takeBefore pat cs

/-- Python `str.strip()`. -/
def pyStrip (s : String) : String :=
  String.mk (((s.data.dropWhile isPySpace).reverse.dropWhile isPySpace).reverse)

/-- One iteration of the merge loop of `enrich_user` (lines 106-131): LinkedIn
(plus name extraction from the title), else GitHub, else Twitter/X, else the
deduplicated `other_urls` bucket. -/
def mergeResult (e : EnrichFields) (r : ExaResult) : EnrichFields :=
  let url := sLower r.url
  let title := pyOr r.title ""
  if sHas url "linkedin.com/in/" && e.linkedin_url.isNone then
    let e1 := { e with linkedin_url := some r.url }
    if sHas title " - " then
      let namePart := pyStrip (String.mk (takeBefore " - ".data title.data))
      if !(pyTruthy e1.full_name) then { e1 with full_name := some namePart }
      else e1
    else e1
  else if sHas url "github.com/" && e.github_url.isNone then
    { e with github_url := some r.url }
  else if (sHas url "twitter.com/" || sHas url "x.com/")
      && e.twitter_url.isNone then
    { e with twitter_url := some r.url }
  else
    if e.other_urls.contains r.url then e
    else { e with other_urls := e.other_urls ++ [r.url] }

/-- The whole merge loop of `enrich_user` over the ranked results. -/
def enrich_user_merge (results : List ExaResult) : EnrichFields :=
  results.foldl mergeResult initEnrich

/-! ## Embedding of the link-classification loop of `parse_user_profile`
(`scrape.py`, lines 88-110) -/

/-- The fields assigned by the link loop (`data["github_username"]` etc.). -/
@[ext]
structure LinkFields where
  github_username : Option String
  twitter_username : Option String
  website : Option String
deriving DecidableEq

/-- Strip `pat` from the front of `cs`, returning the remainder. -/
def stripStart? : List Char → List Char → Option (List Char)
  | [], cs => some cs
  | _ :: _, [] => none
  | a :: as, b :: bs => if a == b then stripStart? as bs else none

/-- The regex character class `[a-zA-Z0-9_-]` (GitHub usernames). -/
def isGhChar (c : Char) : Bool := c.isAlphanum || c == '_' || c == '-'

/-- The regex character class `[a-zA-Z0-9_]` (Twitter usernames). -/
def isTwChar (c : Char) : Bool := c.isAlphanum || c == '_'

/-- The tail `([chars]+)/?$` of both profile regexes: a non-empty run of
allowed characters, an optional trailing slash, then end of string. -/
def matchTail (userChar : Char → Bool) (r : List Char) : Option String :=
  match r.takeWhile userChar, r.dropWhile userChar with
  | [], _ => none
  | ds, [] => some (String.mk ds)
  | ds, ['/'] => some (String.mk ds)
  | _, _ => none

/-- The scheme part `https?://` of both profile regexes. -/
def matchScheme (cs : List Char) : Option (List Char) :=
  match stripStart? "https://".data cs with
  | some r => some r
  | none => stripStart? "http://".data cs

/-- The optional `(?:www\.)?` part. -/
def skipWww (cs : List Char) : List Char :=
  match stripStart? "www.".data cs with
  | some r => r
  | none => cs

/-- `re.match(r"https?://(?:www\.)?github\.com/([a-zA-Z0-9_-]+)/?$", href)`,
returning the captured username. -/
def matchGithub (href : String) : Option String :=
  match matchScheme href.data with
  | none => none
  | some r =>
      match stripStart? "github.com/".data (skipWww r) with
      | some rest => matchTail isGhChar rest
      | none => none

/-- `re.match(r"https?://(?:www\.)?(?:twitter|x)\.com/([a-zA-Z0-9_]+)/?$", href)`,
returning the captured username. -/
def matchTwitter (href : String) : Option String :=
  match matchScheme href.data with
  | none => none
  | some r =>
      match stripStart? "twitter.com/".data (skipWww r) with
      | some rest => matchTail isTwChar rest
      | none =>
          match stripStart? "x.com/".data (skipWww r) with
          | some rest => matchTail isTwChar rest
          | none => none

/-- The fixed exclusion list of known platform domains. -/
def excludedDomains : List String :=
  ["github.com", "twitter.com", "x.com", "linkedin.com",
   "lobste.rs", "reddit.com", "news.ycombinator.com"]

/-- `any(domain in href for domain in [...])`. -/
def isExcluded (href : String) : Bool :=
  excludedDomains.any (fun d => sHas href d)

/-- One iteration of the link loop: an unguarded GitHub assignment, an
unguarded Twitter/X assignment, and a guarded (`"website" not in data`)
personal-website assignment. -/
def classifyLink (d : LinkFields) (href : String) : LinkFields :=
  let d1 :=
    match matchGithub href with
    | some u => { d with github_username := some u }
    | none => d
  let d2 :=
    match matchTwitter href with
    | some u => { d1 with twitter_username := some u }
    | none => d1
  if strStarts "http".data href.data && !(isExcluded href)
      && d2.website.isNone then
    { d2 with website := some href }
  else d2

/-- The link loop of `parse_user_profile` over the `href` attributes of
`soup.find_all("a", href=True)` in document order. -/
def parse_profile_links (hrefs : List String) : LinkFields :=
  hrefs.foldl classifyLink
    { github_username := none, twitter_username := none, website := none }

/-! ## Abstract invitation trees and their rendering

`UTree` is an abstract nested user tree (username, karma digit string,
invited children).  `renderT` lays it out exactly as the lobste.rs markup
that `parse_tree.py` documents: `<li><a name=u href="/~u">u</a> (karma)<ul
class="user_tree">...</ul></li>`.  `flattenT` states the spec's words: each
entry yields one fact, in pre-order, whose inviter is the enclosing entry's
username (null at the top level). -/

mutual
inductive UTree where
  | mk (username : String) (karma : String) (children : UTreeList)
deriving DecidableEq
inductive UTreeList where
  | nil
  | cons (t : UTree) (ts : UTreeList)
deriving DecidableEq
end

/-- The anchor `<a name=u href="/~u">u</a>` of a rendered entry. -/
def mkAnchor (u : String) : Node :=
  .elem "a" [("name", u), ("href", "/~" ++ u)] (.cons (.text u) .nil)

mutual
/-- Render one abstract entry as its lobste.rs markup:
`<li><a name=u href="/~u">u</a> (karma)<ul class="user_tree">children</ul></li>`. -/
def renderT : UTree → Node
  | .mk u k cs =>
      .elem "li" []
        (.cons (mkAnchor u)
          (.cons (.text (" (" ++ k ++ ")"))
            (.cons (.elem "ul" [("class", "user_tree")] (renderL cs)) .nil)))
/-- Render a list of abstract entries. -/
def renderL : UTreeList → NodeList
  | .nil => .nil
  | .cons t ts => .cons (renderT t) (renderL ts)
end

/-- The child list of a rendered entry (anchor, karma text, nested list). -/
def renderChildren (u k : String) (ns : NodeList) : NodeList :=
  .cons (mkAnchor u)
    (.cons (.text (" (" ++ k ++ ")"))
      (.cons (.elem "ul" [("class", "user_tree")] ns) .nil))

/-- A whole document: one top-level `<ul class="user_tree">`. -/
def renderDoc (forest : UTreeList) : NodeList :=
  .cons (.elem "ul" [("class", "user_tree")] (renderL forest)) .nil

mutual
/-- The spec's reading of one entry: one fact per entry, pre-order, inviter =
enclosing entry's username. -/
def flattenT (parent : Option String) : UTree → List UserFact
  | .mk u k cs =>
      { username := u, karma := digitsToNat k.data,
        invited_by_username := parent, is_inactive := false }
        :: flattenL (some u) cs
/-- `flattenT` over a list of sibling entries. -/
def flattenL (parent : Option String) : UTreeList → List UserFact
  | .nil => []
  | .cons t ts => flattenT parent t ++ flattenL parent ts
end

mutual
/-- Well-formedness of an abstract entry: non-empty username, non-empty
all-digit karma string, well-formed children. -/
def wfT : UTree → Bool
  | .mk u k cs => !(u == "") && !(k.data.isEmpty) && k.data.all Char.isDigit && wfL cs
/-- Well-formedness of a list of abstract entries. -/
def wfL : UTreeList → Bool
  | .nil => true
  | .cons t ts => wfT t && wfL ts
end

/-! ## Auxiliary notions used by claim statements -/

/-- Append of `NodeList`s. -/
def nlApp : NodeList → NodeList → NodeList
  | .nil, ms => ms
  | .cons n ns, ms => .cons n (nlApp ns ms)

/-- A document whose single top-level node is the main user tree. -/
def treeDoc (ls : NodeList) : NodeList :=
  .cons (.elem "ul" [("class", "user_tree")] ls) .nil

/-- Build a `NodeList` from a `List Node`. -/
def nl : List Node → NodeList
  | [] => .nil
  | n :: ns => .cons n (nl ns)

/-- Every fact with an inviter is preceded by a fact carrying that username,
given the usernames in `prior` are considered already seen. -/
def PrecededFrom (prior : List String) : List UserFact → Prop
  | [] => True
  | f :: rest =>
      (∀ p, f.invited_by_username = some p → p ∈ prior)
        ∧ PrecededFrom (f.username :: prior) rest

/-! ## Concrete fixtures -/

/-- The spec's example child entry, exactly as written (anchor without `href`). -/
def exChildNoHref : Node :=
  .elem "li" [] (nl [
    .elem "a" [("name", "child")] (nl [.text "child"]),
    .text " (5)"])

/-- The spec's example root entry, exactly as written (anchor without `href`). -/
def exRootNoHref : Node :=
  .elem "li" [] (nl [
    .elem "a" [("name", "root")] (nl [.text "root"]),
    .text " (100)",
    .elem "ul" [("class", "user_tree")] (nl [exChildNoHref])])

/-- The spec's example document, exactly as written. -/
def exDocNoHref : NodeList :=
  nl [.elem "ul" [("class", "user_tree")] (nl [exRootNoHref])]

/-- The example child entry with the `href` the real markup carries. -/
def exChild : Node :=
  .elem "li" [] (nl [
    .elem "a" [("name", "child"), ("href", "/~child")] (nl [.text "child"]),
    .text " (5)"])

/-- The example root entry with the `href` the real markup carries. -/
def exRoot : Node :=
  .elem "li" [] (nl [
    .elem "a" [("name", "root"), ("href", "/~root")] (nl [.text "root"]),
    .text " (100)",
    .elem "ul" [("class", "user_tree")] (nl [exChild])])

/-- The example document with `href` attributes. -/
def exDoc : NodeList := nl [.elem "ul" [("class", "user_tree")] (nl [exRoot])]

/-- An entry with no anchor anywhere within it. -/
def badLi : Node := .elem "li" [] (nl [.text "malformed"])

/-- An entry with no anchor of its own whose nested list has an anchored entry. -/
def c10Outer : Node :=
  .elem "li" [] (nl [
    .text "junk",
    .elem "ul" [("class", "user_tree")] (nl [exChild])])

/-- A document whose only top-level entry is `c10Outer`. -/
def c10Doc : NodeList := nl [.elem "ul" [("class", "user_tree")] (nl [c10Outer])]

/-- A stored user row with a non-null karma. -/
def c1Row : UserRow :=
  { karma := some 100, about := none, created_at := none,
    invited_by_username := none, github_username := none,
    twitter_username := none, website := none, scraped_at := none }

/-- A user table holding `c1Row` under "alice". -/
def c1Table : UserTable := fun u => if u = "alice" then some c1Row else none

/-- An enrichment state whose `linkedin_url` is already set. -/
def c3State : EnrichFields :=
  { full_name := none, linkedin_url := some "https://linkedin.com/in/a",
    github_url := none, twitter_url := none, other_urls := [] }

/-- A later candidate that also matches the LinkedIn pattern. -/
def c3Result : ExaResult := { url := "https://linkedin.com/in/b", title := none }

/-- A user whose only signal is `github_username="alice"`. -/
def c4User : DbUser :=
  { username := "alice", about := none, github_username := some "alice",
    twitter_username := none, website := none }

/-- A previously stored enrichment row. -/
def c6Old : EnrRow :=
  { full_name := some "Old Name", linkedin_url := some "https://linkedin.com/in/old",
    github_url := none, twitter_url := none, company := some "OldCo",
    title := none, location := none, bio := none, other_urls := none,
    raw_response := some "old", enriched_at := some "2024-01-01" }

/-- A re-enrichment row with a different field set. -/
def c6New : EnrRow :=
  { full_name := none, linkedin_url := none,
    github_url := some "https://github.com/new", twitter_url := none,
    company := none, title := some "Engineer", location := none,
    bio := some "bio", other_urls := some "[]",
    raw_response := some "new", enriched_at := some "2024-02-02" }

/-- An enrichment table holding `c6Old` under "bob". -/
def c6Table : EnrTable := fun u => if u = "bob" then some c6Old else none

/-- The example two-node invitation tree as an abstract forest. -/
def exForest : UTreeList :=
  .cons (.mk "root" "100" (.cons (.mk "child" "5" .nil) .nil)) .nil

end Lob

namespace Lob

/-! ## General helper lemmas -/

theorem coalesce_none (b : Option α) : coalesce none b = b := rfl

theorem coalesce_some (a : α) (b : Option α) : coalesce (some a) b = some a := rfl

theorem coalesce_absorb (a b : Option α) :
    coalesce a (coalesce a b) = coalesce a b := by
  cases a <;> rfl

theorem coalesce_self (a : Option α) : coalesce a a = a := by
  cases a <;> rfl

theorem sLower_append (a b : String) : sLower (a ++ b) = sLower a ++ sLower b := by
  show String.mk ((a ++ b).data.map Char.toLower) = _
  rw [String.data_append, List.map_append]
  rfl

theorem strStarts_extend (pat xs ys : List Char) (h : strStarts pat xs = true) :
    strStarts pat (xs ++ ys) = true := by
  induction pat generalizing xs with
  | nil => rfl
  | cons a as ih =>
      cases xs with
      | nil => simp [strStarts] at h
      | cons b bs =>
          simp only [strStarts, Bool.and_eq_true] at h ⊢
          exact ⟨h.1, ih bs h.2⟩

theorem strHas_of_starts (cs pat : List Char) (h : strStarts pat cs = true) :
    strHas cs pat = true := by
  cases cs with
  | nil => exact h
  | cons c cs => simp [strHas, h]

theorem strStarts_append_self (xs ys : List Char) :
    strStarts xs (xs ++ ys) = true := by
  induction xs with
  | nil => rfl
  | cons a as ih => simp [strStarts, ih]

/-! ## C1 — user upsert field semantics -/

/-- C1 counterexample: the claim says an existing non-null stored field is
never overwritten, so upserting karma 5 over stored karma 100 should leave
100; `upsert_user` (via `COALESCE(excluded.karma, karma)`) stores 5. -/
theorem c1_counterexample :
    (upsert_user c1Table "alice" (some 5) none none none none none none none)
        "alice"
      = some { c1Row with karma := some 5 }
    ∧ (upsert_user c1Table "alice" (some 5) none none none none none none none)
        "alice"
      ≠ some c1Row := by
  decide

/-- C1 (amended): on an upsert over an existing record, each field provided
as non-null overwrites the stored value, and each field provided as null
leaves the stored value unchanged (last-known-value wins; the null-preserving
half of the original claim holds, the never-overwrite half does not). -/
theorem c1_upsert_field_semantics (t : UserTable) (username : String)
    (karma : Option Int)
    (about created_at inv gh tw web scr : Option String) (old : UserRow)
    (h : t username = some old) :
    ∃ r, (upsert_user t username karma about created_at inv gh tw web scr)
          username = some r
      ∧ (karma = none → r.karma = old.karma)
      ∧ (∀ v, karma = some v → r.karma = some v)
      ∧ (about = none → r.about = old.about)
      ∧ (∀ v, about = some v → r.about = some v)
      ∧ (created_at = none → r.created_at = old.created_at)
      ∧ (∀ v, created_at = some v → r.created_at = some v)
      ∧ (inv = none → r.invited_by_username = old.invited_by_username)
      ∧ (∀ v, inv = some v → r.invited_by_username = some v)
      ∧ (gh = none → r.github_username = old.github_username)
      ∧ (∀ v, gh = some v → r.github_username = some v)
      ∧ (tw = none → r.twitter_username = old.twitter_username)
      ∧ (∀ v, tw = some v → r.twitter_username = some v)
      ∧ (web = none → r.website = old.website)
      ∧ (∀ v, web = some v → r.website = some v)
      ∧ (scr = none → r.scraped_at = old.scraped_at)
      ∧ (∀ v, scr = some v → r.scraped_at = some v) := by
  refine ⟨{ karma := coalesce karma old.karma,
            about := coalesce about old.about,
            created_at := coalesce created_at old.created_at,
            invited_by_username := coalesce inv old.invited_by_username,
            github_username := coalesce gh old.github_username,
            twitter_username := coalesce tw old.twitter_username,
            website := coalesce web old.website,
            scraped_at := coalesce scr old.scraped_at },
    by simp [upsert_user, h], ?_, ?_, ?_, ?_, ?_, ?_, ?_, ?_, ?_,
    ?_, ?_, ?_, ?_, ?_, ?_, ?_⟩ <;>
    first
      | (intro hv; subst hv; rfl)
      | (intro v hv; subst hv; rfl)

/-- C1 witness: the amended field semantics applied to the concrete table. -/
theorem c1_witness :
    ∃ r, (upsert_user c1Table "alice" (some 5) (some "bio") none none none
          none none none) "alice" = some r
      ∧ ((some 5 : Option Int) = none → r.karma = c1Row.karma)
      ∧ (∀ v, (some 5 : Option Int) = some v → r.karma = some v)
      ∧ ((some "bio" : Option String) = none → r.about = c1Row.about)
      ∧ (∀ v, (some "bio" : Option String) = some v → r.about = some v)
      ∧ ((none : Option String) = none → r.created_at = c1Row.created_at)
      ∧ (∀ v, (none : Option String) = some v → r.created_at = some v)
      ∧ ((none : Option String) = none →
          r.invited_by_username = c1Row.invited_by_username)
      ∧ (∀ v, (none : Option String) = some v → r.invited_by_username = some v)
      ∧ ((none : Option String) = none →
          r.github_username = c1Row.github_username)
      ∧ (∀ v, (none : Option String) = some v → r.github_username = some v)
      ∧ ((none : Option String) = none →
          r.twitter_username = c1Row.twitter_username)
      ∧ (∀ v, (none : Option String) = some v → r.twitter_username = some v)
      ∧ ((none : Option String) = none → r.website = c1Row.website)
      ∧ (∀ v, (none : Option String) = some v → r.website = some v)
      ∧ ((none : Option String) = none → r.scraped_at = c1Row.scraped_at)
      ∧ (∀ v, (none : Option String) = some v → r.scraped_at = some v) :=
  c1_upsert_field_semantics c1Table "alice" (some 5) (some "bio") none none
    none none none none c1Row (by decide)

/-! ## C6 — enrichment upsert is a full overwrite -/

/-- C6: upserting an enrichment row for a username that already has one
replaces every field with the new row's values (the stored record is exactly
the new row), and no other username's record changes. -/
theorem c6_save_enrichment_full_overwrite (t : EnrTable) (username : String)
    (old e : EnrRow) (h : t username = some old) :
    (save_enrichment t username e) username = some e
      ∧ ∀ u, u ≠ username → (save_enrichment t username e) u = t u := by
  constructor
  · simp [save_enrichment, h]
  · intro u hu
    simp [save_enrichment, hu]

/-- C6 witness: re-enriching "bob" with a different field set stores exactly
the new set. -/
theorem c6_witness :
    (save_enrichment c6Table "bob" c6New) "bob" = some c6New
      ∧ (save_enrichment c6Table "bob" c6New) "carol" = c6Table "carol" :=
  ⟨(c6_save_enrichment_full_overwrite c6Table "bob" c6Old c6New (by decide)).1,
   (c6_save_enrichment_full_overwrite c6Table "bob" c6Old c6New (by decide)).2
     "carol" (by decide)⟩

/-! ## C3 — a duplicate LinkedIn candidate goes to other urls -/

/-- C3 counterexample: with `linkedin_url` already taken by the first
candidate, the second LinkedIn-matching candidate is appended to
`other_urls` — the claim says it is discarded entirely. -/
theorem c3_counterexample :
    enrich_user_merge
        [ { url := "https://www.linkedin.com/in/alice", title := none },
          { url := "https://www.linkedin.com/in/alice2", title := none } ]
      = { full_name := none,
          linkedin_url := some "https://www.linkedin.com/in/alice",
          github_url := none, twitter_url := none,
          other_urls := ["https://www.linkedin.com/in/alice2"] } := by
  decide

/-- C3 (amended): a later candidate matching the LinkedIn pattern while
`linkedin_url` is already set is not assigned to any specific field, but it
falls through to the `other_urls` bucket and is appended there when not
already present. -/
theorem c3_dup_linkedin_falls_to_other_urls (e : EnrichFields) (r : ExaResult)
    (h1 : e.linkedin_url.isSome = true)
    (h2 : sHas (sLower r.url) "linkedin.com/in/" = true)
    (h3 : sHas (sLower r.url) "github.com/" = false)
    (h4 : sHas (sLower r.url) "twitter.com/" = false)
    (h5 : sHas (sLower r.url) "x.com/" = false)
    (h6 : e.other_urls.contains r.url = false) :
    mergeResult e r = { e with other_urls := e.other_urls ++ [r.url] } := by
  have hn : e.linkedin_url.isNone = false := by
    cases hl : e.linkedin_url <;> simp_all
  have h6m : ¬ r.url ∈ e.other_urls := by simpa using h6
  simp [mergeResult, h2, h3, h4, h5, h6m, hn]

/-- C3 witness: the amended behaviour at a concrete state and candidate. -/
theorem c3_witness :
    mergeResult c3State c3Result
      = { c3State with other_urls := c3State.other_urls ++ [c3Result.url] } :=
  c3_dup_linkedin_falls_to_other_urls c3State c3Result (by decide) (by decide)
    (by decide) (by decide) (by decide) (by decide)

/-! ## C4 — github-only search query -/

/-- C4 counterexample: for a user whose only signal is
`github_username="alice"` the constructed query is "github.com/alice"; the
qualifier is not appended because the query contains "github", so the claimed
value "github.com/alice software engineer developer" is wrong. -/
theorem c4_counterexample :
    build_search_query c4User = some "github.com/alice"
    ∧ build_search_query c4User
        ≠ some "github.com/alice software engineer developer" := by
  decide

/-- C4 (amended): for every user whose github username is a non-empty `g`
and whose twitter and website signals are falsy, the query is exactly
"github.com/" ++ g with no qualifier (the single term already contains
"github", which suppresses the generic qualifier). -/
theorem c4_github_only_query (u : DbUser) (g : String)
    (hg : u.github_username = some g) (hne : g ≠ "")
    (ht : pyTruthy u.twitter_username = false)
    (hw : pyTruthy u.website = false) :
    build_search_query u = some ("github.com/" ++ g) := by
  have hghT : pyTruthy u.github_username = true := by
    rw [hg]; simp [pyTruthy, hne]
  have hhas : sHas (sLower ("github.com/" ++ g)) "github" = true := by
    rw [sLower_append]
    apply strHas_of_starts
    rw [String.data_append]
    exact strStarts_extend _ _ _ (by decide)
  unfold build_search_query
  rw [hghT, ht, hw, hg]
  simp only [Option.getD_some, if_true, List.append_nil, List.nil_append]
  simp [joinSpace, hhas]

/-- C4 witness: the amended query for the concrete github-only user. -/
theorem c4_witness : build_search_query c4User = some ("github.com/" ++ "alice") :=
  c4_github_only_query c4User "alice" (by decide) (by decide) (by decide)
    (by decide)

/-! ## C5 — profile link classification -/

/-- C5 counterexample: with two GitHub profile links in document order the
stored `github_username` is the second one — the first match is overwritten,
contradicting first-match-wins. -/
theorem c5_counterexample :
    (parse_profile_links ["https://github.com/a", "https://github.com/b"]).github_username
        = some "b"
    ∧ (parse_profile_links ["https://github.com/a", "https://github.com/b"]).github_username
        ≠ some "a" := by
  decide

/-- C5 (amended): `github_username` and `twitter_username` take the LAST
matching link (every match overwrites the field), while `website` keeps the
FIRST match (guarded by `"website" not in data`); in particular a final
GitHub-matching link decides `github_username` whatever came before. -/
theorem c5_classification_precedence :
    (∀ d h u, matchGithub h = some u →
        (classifyLink d h).github_username = some u)
    ∧ (∀ d h u, matchTwitter h = some u →
        (classifyLink d h).twitter_username = some u)
    ∧ (∀ d h, d.website.isSome = true → (classifyLink d h).website = d.website)
    ∧ (∀ hs h u, matchGithub h = some u →
        (parse_profile_links (hs ++ [h])).github_username = some u) := by
  have hgh : ∀ d h u, matchGithub h = some u →
      (classifyLink d h).github_username = some u := by
    intro d h u hm
    unfold classifyLink
    rw [hm]
    cases htw : matchTwitter h <;>
      simp <;> split <;> rfl
  refine ⟨hgh, ?_, ?_, ?_⟩
  · intro d h u hm
    unfold classifyLink
    rw [hm]
    cases hgh2 : matchGithub h <;> simp <;> split <;> rfl
  · intro d h hw
    have hn : d.website.isNone = false := by
      cases hx : d.website <;> simp_all
    unfold classifyLink
    cases hgh2 : matchGithub h <;> cases htw : matchTwitter h <;>
      simp [hn]
  · intro hs h u hm
    unfold parse_profile_links
    rw [List.foldl_append]
    exact hgh _ h u hm

/-- C5 witness: the last GitHub link decides the field on a concrete list. -/
theorem c5_witness :
    (parse_profile_links (["https://github.com/a"] ++ ["https://github.com/b"])).github_username
      = some "b" :=
  c5_classification_precedence.2.2.2 ["https://github.com/a"]
    "https://github.com/b" "b" (by decide)

/-! ## Parse lemmas shared by C8, C9, C10 -/

/-- An entry in which no user anchor is found anywhere yields nothing: the
`return` in `parse_li` skips the whole entry, nested subtree included. -/
theorem parse_li_skip (li : Node) (p : Option String)
    (h : findLink li = none) : parse_li li p = [] := by
  cases li with
  | text s => rfl
  | elem t a cs => simp [parse_li, h]

/-- Dropping an anchor-free node from a sibling list leaves the parsed output
unchanged (lists at every nesting depth are processed by `parseLis`). -/
theorem parseLis_erase_bad (bad : Node) (h : findLink bad = none)
    (xs : NodeList) : ∀ (ys : NodeList) (parent : Option String),
    parseLis (nlApp xs (.cons bad ys)) parent = parseLis (nlApp xs ys) parent :=
  match xs with
  | .nil => fun ys parent => by
      simp [nlApp, parseLis, parse_li_skip bad parent h]
  | .cons n ns => fun ys parent => by
      have ih := parseLis_erase_bad bad h ns ys parent
      simp only [nlApp, parseLis, ih]

/-- `parse_users_tree` on a document whose top node is the main tree is the
top-level `<li>` loop. -/
theorem parse_users_tree_treeDoc (ls : NodeList) :
    parse_users_tree (treeDoc ls) = parseLis ls none := rfl

/-! ## C8 — malformed entries are skipped silently -/

/-- C8: an entry with no extractable username parses to nothing (and, the
parse being a total function, no error is raised), and its presence in a
sibling list — at the top level of the document or at any nesting depth —
leaves the rest of the parsed output unchanged. -/
theorem c8_malformed_entry_harmless (bad : Node) (parent : Option String)
    (xs ys : NodeList) (h : findLink bad = none) :
    parse_li bad parent = []
    ∧ parseLis (nlApp xs (.cons bad ys)) parent = parseLis (nlApp xs ys) parent
    ∧ parse_users_tree (treeDoc (nlApp xs (.cons bad ys)))
        = parse_users_tree (treeDoc (nlApp xs ys)) := by
  refine ⟨parse_li_skip bad parent h, parseLis_erase_bad bad h xs ys parent, ?_⟩
  rw [parse_users_tree_treeDoc, parse_users_tree_treeDoc]
  exact parseLis_erase_bad bad h xs ys none

/-- C8 witness: a concrete anchor-free `<li>` between two well-formed
sibling entries. -/
theorem c8_witness :
    parse_li badLi (some "root") = []
    ∧ parseLis (nlApp (nl [exRoot]) (.cons badLi (nl [exChild]))) (some "root")
        = parseLis (nlApp (nl [exRoot]) (nl [exChild])) (some "root")
    ∧ parse_users_tree (treeDoc (nlApp (nl [exRoot]) (.cons badLi (nl [exChild]))))
        = parse_users_tree (treeDoc (nlApp (nl [exRoot]) (nl [exChild]))) :=
  c8_malformed_entry_harmless badLi (some "root") (nl [exRoot]) (nl [exChild])
    (by decide)

/-! ## C10 — what happens to the subtree of a username-less entry -/

/-- C10 counterexample: `c10Outer` has no anchor of its own
(`findDirect` fails), its nested list holds the anchored entry "child", and
yet "child" appears in the output — twice, once adopted by the outer entry
via the recursive fallback `find` and once for the entry itself. -/
theorem c10_counterexample :
    findDirect isUserAnchor c10Outer = none
    ∧ (parse_users_tree c10Doc).map (fun f => f.username) = ["child", "child"] := by
  decide

/-- C10 (amended): an entry with no anchor anywhere within it (nested lists
included) is skipped together with its entire subtree; but an entry lacking
its own anchor whose nested list contains one adopts the first descendant
anchor's username and its subtree is still parsed — as on `c10Doc`, where
the outer entry becomes "child" and the nested "child" is parsed with itself
recorded as inviter. -/
theorem c10_anchorless_entry (li : Node) (p : Option String)
    (h : findLink li = none) :
    parse_li li p = []
    ∧ parse_users_tree c10Doc
      = [ { username := "child", karma := 5, invited_by_username := none,
            is_inactive := false },
          { username := "child", karma := 5, invited_by_username := some "child",
            is_inactive := false } ] :=
  ⟨parse_li_skip li p h, by decide⟩

/-- C10 witness: the amended statement at a concrete anchor-free entry. -/
theorem c10_witness :
    parse_li badLi none = []
    ∧ parse_users_tree c10Doc
      = [ { username := "child", karma := 5, invited_by_username := none,
            is_inactive := false },
          { username := "child", karma := 5, invited_by_username := some "child",
            is_inactive := false } ] :=
  c10_anchorless_entry badLi none (by decide)

/-! ## C9 — parents precede children in the output -/

theorem precededFrom_mono (prior prior2 : List String) (l : List UserFact)
    (hsub : ∀ x, x ∈ prior → x ∈ prior2) (h : PrecededFrom prior l) :
    PrecededFrom prior2 l := by
  induction l generalizing prior prior2 with
  | nil => trivial
  | cons f rest ih =>
      obtain ⟨h1, h2⟩ := h
      refine ⟨fun p hp => hsub p (h1 p hp), ih _ _ ?_ h2⟩
      intro x hx
      rcases List.mem_cons.mp hx with hx | hx
      · exact List.mem_cons.mpr (Or.inl hx)
      · exact List.mem_cons.mpr (Or.inr (hsub x hx))

theorem precededFrom_append (xs ys : List UserFact) (prior : List String)
    (hx : PrecededFrom prior xs) (hy : PrecededFrom prior ys) :
    PrecededFrom prior (xs ++ ys) := by
  induction xs generalizing prior with
  | nil => simpa using hy
  | cons f rest ih =>
      obtain ⟨h1, h2⟩ := hx
      refine ⟨h1, ih _ h2 ?_⟩
      exact precededFrom_mono _ _ _
        (fun x hx2 => List.mem_cons.mpr (Or.inr hx2)) hy

mutual
theorem preceded_parse_li (li : Node) (parent : Option String)
    (prior : List String) (hp : ∀ p, parent = some p → p ∈ prior) :
    PrecededFrom prior (parse_li li parent) :=
  match li with
  | .text _ => trivial
  | .elem t a cs => by
      simp only [parse_li]
      cases hl : findLink (.elem t a cs) with
      | none => exact trivial
      | some link =>
          exact ⟨hp, preceded_parseNested cs _ _
            (List.mem_cons.mpr (Or.inl rfl))⟩
theorem preceded_parseNested (ns : NodeList) (u : String)
    (prior : List String) (hu : u ∈ prior) :
    PrecededFrom prior (parseNested ns u) :=
  match ns with
  | .nil => trivial
  | .cons (.text _) rest => preceded_parseNested rest u prior hu
  | .cons (.elem t a cs) rest => by
      simp only [parseNested]
      split
      · exact preceded_parseLis cs (some u) prior
          (fun p hp => by cases hp; exact hu)
      · exact preceded_parseNested rest u prior hu
theorem preceded_parseLis (ls : NodeList) (parent : Option String)
    (prior : List String) (hp : ∀ p, parent = some p → p ∈ prior) :
    PrecededFrom prior (parseLis ls parent) :=
  match ls with
  | .nil => trivial
  | .cons n rest => by
      simp only [parseLis]
      refine precededFrom_append _ _ _ ?_
        (preceded_parseLis rest parent prior hp)
      split
      · exact preceded_parse_li n parent prior hp
      · exact trivial
end

theorem precededFrom_index (l : List UserFact) (prior : List String)
    (h : PrecededFrom prior l) :
    ∀ (i : Nat) (f : UserFact) (p : String), l[i]? = some f →
      f.invited_by_username = some p →
      p ∈ prior ∨ ∃ j, j < i ∧ ∃ g, l[j]? = some g ∧ g.username = p := by
  induction l generalizing prior with
  | nil => intro i f p hf; simp at hf
  | cons a rest ih =>
      intro i f p hf hp
      cases i with
      | zero =>
          simp only [List.getElem?_cons_zero, Option.some.injEq] at hf
          subst hf
          exact Or.inl (h.1 p hp)
      | succ n =>
          have hf2 : rest[n]? = some f := by simpa using hf
          rcases ih _ h.2 n f p hf2 hp with hmem | ⟨j, hj, g, hg, hgu⟩
          · rcases List.mem_cons.mp hmem with heq | hmem2
            · exact Or.inr ⟨0, Nat.zero_lt_succ n, a, by simp, heq.symm⟩
            · exact Or.inl hmem2
          · exact Or.inr ⟨j + 1, Nat.succ_lt_succ hj, g, by simpa using hg, hgu⟩

/-- C9: in the reconstruction output, for every fact whose inviter is `p`
there is a strictly earlier fact whose username is `p`: the parent's fact is
appended before the recursive descent into its invitees. -/
theorem c9_parents_precede (doc : NodeList) :
    ∀ (i : Nat) (f : UserFact) (p : String), (parse_users_tree doc)[i]? = some f →
      f.invited_by_username = some p →
      ∃ j, j < i ∧ ∃ g, (parse_users_tree doc)[j]? = some g ∧ g.username = p := by
  intro i f p hf hp
  have h0 : PrecededFrom [] (parse_users_tree doc) := by
    unfold parse_users_tree
    cases hfind : findRecL isUserTreeUl doc with
    | none => exact trivial
    | some n =>
        cases n with
        | text s => exact trivial
        | elem t a cs =>
            exact preceded_parseLis cs none [] (fun p hp => by cases hp)
  rcases precededFrom_index _ _ h0 i f p hf hp with hmem | hex
  · cases hmem
  · exact hex

/-- C9 witness: in the parsed example document, the fact at index 1 has
inviter "root", and index 0 indeed carries username "root". -/
theorem c9_witness :
    ∃ j, j < 1 ∧ ∃ g, (parse_users_tree exDoc)[j]? = some g
      ∧ g.username = "root" :=
  c9_parents_precede exDoc 1
    { username := "child", karma := 5, invited_by_username := some "root",
      is_inactive := false } "root" (by decide) (by decide)

/-! ## C7 — idempotence of user upserts and of tree ingestion -/

theorem coalesce_none_right (a : Option α) : coalesce a none = a := by
  cases a <;> rfl

/-- Applying the same user upsert twice yields the same table as applying it
once. -/
theorem upsert_user_idem (t : UserTable) (username : String)
    (karma : Option Int)
    (about created_at inv gh tw web scr : Option String) :
    upsert_user (upsert_user t username karma about created_at inv gh tw web scr)
        username karma about created_at inv gh tw web scr
      = upsert_user t username karma about created_at inv gh tw web scr := by
  funext u
  by_cases h : u = username
  · subst h
    cases ht : t u <;>
      simp [upsert_user, ht, coalesce_self, coalesce_absorb]
  · simp [upsert_user, h]

/-- Pointwise view of the ingestion loop: the row stored under `u` is the
fold of the facts carrying username `u` over the previous row. -/
theorem ingest_at (fs : List UserFact) :
    ∀ (t : UserTable) (u : String),
      ingestFacts t fs u
        = (fs.filter (fun f => decide (u = f.username))).foldl rowStep (t u) := by
  induction fs with
  | nil => intro t u; rfl
  | cons f fs ih =>
      intro t u
      show ingestFacts
          (upsert_user t f.username (some (Int.ofNat f.karma)) none none
            f.invited_by_username none none none none) fs u = _
      rw [ih]
      by_cases h : u = f.username
      · have ht : (upsert_user t f.username (some (Int.ofNat f.karma)) none none
              f.invited_by_username none none none none) u
            = some (rowApply ((t u).getD emptyRow) f) := by
          rw [h]
          cases htf : t f.username <;>
            simp [upsert_user, htf, rowApply, emptyRow, coalesce_none_right,
              coalesce_some, coalesce_none]
        rw [ht]
        simp [List.filter_cons, h, rowStep]
      · have ht : (upsert_user t f.username (some (Int.ofNat f.karma)) none none
              f.invited_by_username none none none none) u = t u := by
          simp [upsert_user, h]
        rw [ht]
        simp [List.filter_cons, h]

theorem foldl_rowStep_some (gs : List UserFact) :
    ∀ o : UserRow, gs.foldl rowStep (some o) = some (rowFold o gs) := by
  induction gs with
  | nil => intro o; rfl
  | cons g gs ih =>
      intro o
      show gs.foldl rowStep (rowStep (some o) g) = _
      exact ih (rowApply o g)

theorem rowFold_const_fields (hs : List UserFact) :
    ∀ o, (rowFold o hs).about = o.about
      ∧ (rowFold o hs).created_at = o.created_at
      ∧ (rowFold o hs).github_username = o.github_username
      ∧ (rowFold o hs).twitter_username = o.twitter_username
      ∧ (rowFold o hs).website = o.website
      ∧ (rowFold o hs).scraped_at = o.scraped_at := by
  induction hs with
  | nil => intro o; exact ⟨rfl, rfl, rfl, rfl, rfl, rfl⟩
  | cons g gs ih => intro o; exact ih (rowApply o g)

theorem rowFold_karma_indep :
    ∀ (hs : List UserFact), hs ≠ [] →
      ∀ o o', (rowFold o hs).karma = (rowFold o' hs).karma
  | [], h, _, _ => absurd rfl h
  | [_], _, _, _ => rfl
  | g :: g2 :: gs, _, o, o' =>
      rowFold_karma_indep (g2 :: gs) (by simp) (rowApply o g) (rowApply o' g)

theorem rowFold_inv (hs : List UserFact) :
    ∀ o, (rowFold o hs).invited_by_username
      = hs.foldl (fun a f => coalesce f.invited_by_username a)
          o.invited_by_username := by
  induction hs with
  | nil => intro o; rfl
  | cons g gs ih => intro o; exact ih (rowApply o g)

theorem invFold_idem (hs : List UserFact) :
    ∀ d : Option String,
      hs.foldl (fun a f => coalesce f.invited_by_username a)
          (hs.foldl (fun a f => coalesce f.invited_by_username a) d)
        = hs.foldl (fun a f => coalesce f.invited_by_username a) d := by
  induction hs with
  | nil => intro d; rfl
  | cons g gs ih =>
      intro d
      cases hg : g.invited_by_username with
      | none =>
          simp only [List.foldl_cons, hg, coalesce_none]
          exact ih d
      | some v =>
          simp only [List.foldl_cons, hg, coalesce_some]

theorem rowFold_idem (hs : List UserFact) (o : UserRow) :
    rowFold (rowFold o hs) hs = rowFold o hs := by
  cases hhs : hs with
  | nil => rfl
  | cons g gs =>
      apply UserRow.ext
      · exact rowFold_karma_indep (g :: gs) (by simp) _ o
      · exact (rowFold_const_fields (g :: gs) _).1
      · exact (rowFold_const_fields (g :: gs) _).2.1
      · calc (rowFold (rowFold o (g :: gs)) (g :: gs)).invited_by_username
            = (g :: gs).foldl (fun a f => coalesce f.invited_by_username a)
                (rowFold o (g :: gs)).invited_by_username :=
              rowFold_inv (g :: gs) _
          _ = (g :: gs).foldl (fun a f => coalesce f.invited_by_username a)
                ((g :: gs).foldl (fun a f => coalesce f.invited_by_username a)
                  o.invited_by_username) := by rw [rowFold_inv]
          _ = (g :: gs).foldl (fun a f => coalesce f.invited_by_username a)
                o.invited_by_username := invFold_idem (g :: gs) _
          _ = (rowFold o (g :: gs)).invited_by_username :=
              (rowFold_inv (g :: gs) o).symm
      · exact (rowFold_const_fields (g :: gs) _).2.2.1
      · exact (rowFold_const_fields (g :: gs) _).2.2.2.1
      · exact (rowFold_const_fields (g :: gs) _).2.2.2.2.1
      · exact (rowFold_const_fields (g :: gs) _).2.2.2.2.2

theorem foldl_rowStep_idem (gs : List UserFact) (o : Option UserRow) :
    gs.foldl rowStep (gs.foldl rowStep o) = gs.foldl rowStep o := by
  cases gs with
  | nil => rfl
  | cons g gs =>
      have h0 : (g :: gs).foldl rowStep o
          = some (rowFold (o.getD emptyRow) (g :: gs)) := by
        show gs.foldl rowStep (rowStep o g) = _
        exact foldl_rowStep_some gs (rowApply (o.getD emptyRow) g)
      rw [h0, foldl_rowStep_some (g :: gs), rowFold_idem]

/-- The full ingestion loop is idempotent for any fact list. -/
theorem ingestFacts_idem (fs : List UserFact) (t : UserTable) :
    ingestFacts (ingestFacts t fs) fs = ingestFacts t fs := by
  funext u
  rw [ingest_at fs (ingestFacts t fs) u, ingest_at fs t u]
  exact foldl_rowStep_idem _ _

/-! ## C2 — rendering and reparsing abstract invitation trees -/

theorem data_ne_nil_of_ne_empty (u : String) (h : u ≠ "") : u.data ≠ [] := by
  intro hd
  apply h
  obtain ⟨l⟩ := u
  show String.mk l = ""
  rw [show l = [] from hd]

theorem isUserAnchor_mkAnchor (u : String) :
    isUserAnchor (mkAnchor u) = true := by
  obtain ⟨ud⟩ := u
  show (("a" == "a")
    && strStarts "/~".data (String.mk ('/' :: '~' :: ud)).data) = true
  simp [strStarts]

theorem takeWhile_digits (rd : List Char) :
    ∀ kd : List Char, (∀ c ∈ kd, c.isDigit = true) →
      (kd ++ ')' :: rd).takeWhile Char.isDigit = kd
      ∧ (kd ++ ')' :: rd).dropWhile Char.isDigit = ')' :: rd := by
  intro kd hk
  induction kd with
  | nil => constructor <;> simp [List.takeWhile, List.dropWhile]
  | cons c cs ih =>
      have hc : c.isDigit = true := hk c (List.mem_cons_self c cs)
      have ihr := ih (fun x hx => hk x (List.mem_cons_of_mem c hx))
      constructor <;>
        simp [List.takeWhile_cons, List.dropWhile_cons, hc, ihr.1, ihr.2]

theorem karmaAt_zero (ud kd rd : List Char)
    (hk1 : kd ≠ []) (hk2 : ∀ c ∈ kd, c.isDigit = true) :
    karmaAt ud (ud ++ (' ' :: '(' :: (kd ++ ')' :: rd)))
      = some (digitsToNat kd) := by
  unfold karmaAt
  rw [strStarts_append_self, if_pos rfl, List.drop_left]
  have hdw : (' ' :: '(' :: (kd ++ ')' :: rd)).dropWhile isPySpace
      = '(' :: (kd ++ ')' :: rd) := by
    simp [List.dropWhile_cons, isPySpace]
  rw [hdw]
  obtain ⟨c, cs, rfl⟩ : ∃ c cs, kd = c :: cs := by
    cases kd with
    | nil => cases hk1 rfl
    | cons c cs => exact ⟨c, cs, rfl⟩
  have ht := takeWhile_digits rd (c :: cs) hk2
  simp only [List.cons_append] at ht ⊢
  simp only [ht.1, ht.2]

theorem searchKarma_at_zero (ud kd rd : List Char) (hu : ud ≠ [])
    (hk1 : kd ≠ []) (hk2 : ∀ c ∈ kd, c.isDigit = true) :
    searchKarma ud (ud ++ (' ' :: '(' :: (kd ++ ')' :: rd)))
      = some (digitsToNat kd) := by
  obtain ⟨c, cs, rfl⟩ : ∃ c cs, ud = c :: cs := by
    cases ud with
    | nil => cases hu rfl
    | cons c cs => exact ⟨c, cs, rfl⟩
  show (match karmaAt (c :: cs) ((c :: cs) ++ (' ' :: '(' :: (kd ++ ')' :: rd))) with
        | some k => some k
        | none => searchKarma (c :: cs) (cs ++ (' ' :: '(' :: (kd ++ ')' :: rd)))) = _
  rw [karmaAt_zero (c :: cs) kd rd hk1 hk2]

theorem getText_render_data (u k : String) (cs : UTreeList) :
    (getTextN (renderT (.mk u k cs))).data
      = u.data ++ (' ' :: '(' :: (k.data ++ ')' :: (getTextL (renderL cs)).data)) := by
  show ((u ++ "") ++ ((" (" ++ k ++ ")") ++ (getTextL (renderL cs) ++ ""))).data = _
  have h1 : (" (" : String).data = [' ', '('] := rfl
  have h2 : (")" : String).data = [')'] := rfl
  have h3 : ("" : String).data = [] := rfl
  simp [String.data_append, h1, h2, h3]

theorem parseNested_render (u k : String) (cs : UTreeList) (v : String) :
    parseNested (.cons (mkAnchor u)
        (.cons (.text (" (" ++ k ++ ")"))
          (.cons (.elem "ul" [("class", "user_tree")] (renderL cs)) .nil))) v
      = parseLis (renderL cs) (some v) := rfl

theorem render_children_eq (u k : String) (cs : UTreeList) :
    renderT (.mk u k cs) = .elem "li" [] (renderChildren u k (renderL cs)) := rfl

theorem firstMatch_renderChildren (u k : String) (ns : NodeList) :
    firstMatch isUserAnchor (renderChildren u k ns) = some (mkAnchor u) := by
  simp [renderChildren, firstMatch, isUserAnchor_mkAnchor]

theorem findLink_renderChildren (u k : String) (ns : NodeList) :
    findLink (.elem "li" [] (renderChildren u k ns)) = some (mkAnchor u) := by
  simp only [findLink, findDirect, firstMatch_renderChildren]

theorem attrName_mkAnchor (u : String) : attr? (mkAnchor u) "name" = some u := rfl

theorem classList_mkAnchor (u : String) : classListOf (mkAnchor u) = [] := rfl

theorem parseNested_renderChildren (u k : String) (ns : NodeList) (v : String) :
    parseNested (renderChildren u k ns) v = parseLis ns (some v) := rfl

theorem parse_li_render (u k : String) (cs : UTreeList) (hu : u ≠ "")
    (hk1 : k.data ≠ []) (hk2 : ∀ c ∈ k.data, c.isDigit = true)
    (p : Option String) :
    parse_li (renderT (.mk u k cs)) p
      = { username := u, karma := digitsToNat k.data,
          invited_by_username := p, is_inactive := false }
          :: parseLis (renderL cs) (some u) := by
  have husername : pyOr (attr? (mkAnchor u) "name")
      (sReplace ((attr? (mkAnchor u) "href").getD "") "/~" "") = u := by
    rw [attrName_mkAnchor]
    simp [pyOr, hu]
  have hkarma :
      searchKarma u.data
          (getTextN (.elem "li" [] (renderChildren u k (renderL cs)))).data
        = some (digitsToNat k.data) := by
    rw [show (.elem "li" [] (renderChildren u k (renderL cs)))
          = renderT (.mk u k cs) from rfl,
      getText_render_data]
    exact searchKarma_at_zero u.data k.data _
      (data_ne_nil_of_ne_empty u hu) hk1 hk2
  rw [render_children_eq]
  simp only [parse_li, findLink_renderChildren, husername, hkarma,
    parseNested_renderChildren, classList_mkAnchor, Option.getD_some,
    List.contains_nil]

mutual
theorem parse_renderT : ∀ (t : UTree), wfT t = true →
    ∀ (p : Option String), parse_li (renderT t) p = flattenT p t
  | .mk u k cs, h, p => by
      have h' : (!(u == "") = true ∧ !(k.data.isEmpty) = true
          ∧ k.data.all Char.isDigit = true) ∧ wfL cs = true := by
        simpa [wfT, Bool.and_eq_true, and_assoc] using h
      have hu : u ≠ "" := by
        have := h'.1.1; simp at this; exact this
      have hk1 : k.data ≠ [] := by
        have := h'.1.2.1; simpa [List.isEmpty_iff] using this
      have hk2 : ∀ c ∈ k.data, c.isDigit = true := by
        have := h'.1.2.2; simpa [List.all_eq_true] using this
      rw [parse_li_render u k cs hu hk1 hk2 p,
        parse_renderL cs h'.2 (some u)]
      rfl
theorem parse_renderL : ∀ (l : UTreeList), wfL l = true →
    ∀ (p : Option String), parseLis (renderL l) p = flattenL p l
  | .nil, _, _ => rfl
  | .cons t ts, h, p => by
      have h' : wfT t = true ∧ wfL ts = true := by
        simpa [wfL, Bool.and_eq_true] using h
      match t with
      | .mk u k cs =>
          show (if (nodeTag (renderT (.mk u k cs)) == "li") = true
                then parse_li (renderT (.mk u k cs)) p else [])
              ++ parseLis (renderL ts) p
            = flattenT p (.mk u k cs) ++ flattenL p ts
          rw [show (nodeTag (renderT (.mk u k cs)) == "li") = true from rfl,
            if_pos rfl, parse_renderT (.mk u k cs) h'.1 p,
            parse_renderL ts h'.2 p]
end

/-- C2 counterexample: the spec's literal example markup has anchors without
`href`; `parse_li`'s anchor search requires an `href` matching `^/~`, so the
parse yields no facts at all, not the claimed two facts. -/
theorem c2_counterexample :
    parse_users_tree exDocNoHref = []
    ∧ parse_users_tree exDocNoHref
      ≠ [ { username := "root", karma := 100, invited_by_username := none,
            is_inactive := false },
          { username := "child", karma := 5, invited_by_username := some "root",
            is_inactive := false } ] := by
  decide

/-- C2 (amended): for every well-formed rendered tree document — entries
carrying `<a name=u href="/~u">u</a> (karma)` anchors as the real markup
does — the parse equals the spec's flattening: one fact per entry, in
document pre-order, with inviter the enclosing entry's username (null at top
level); when the usernames are distinct each appears exactly once; and the
two-node example (with `href` present) yields exactly the two claimed facts. -/
theorem c2_tree_reconstruction :
    (∀ forest : UTreeList, wfL forest = true →
        parse_users_tree (renderDoc forest) = flattenL none forest)
    ∧ (∀ forest : UTreeList, wfL forest = true →
        ((flattenL none forest).map (fun f => f.username)).Nodup →
        ∀ u, u ∈ (parse_users_tree (renderDoc forest)).map (fun f => f.username) →
          ((parse_users_tree (renderDoc forest)).map
              (fun f => f.username)).count u = 1)
    ∧ parse_users_tree exDoc
      = [ { username := "root", karma := 100, invited_by_username := none,
            is_inactive := false },
          { username := "child", karma := 5, invited_by_username := some "root",
            is_inactive := false } ] := by
  have hmain : ∀ forest : UTreeList, wfL forest = true →
      parse_users_tree (renderDoc forest) = flattenL none forest := by
    intro forest h
    show parseLis (renderL forest) none = _
    exact parse_renderL forest h none
  refine ⟨hmain, ?_, by decide⟩
  intro forest h hnodup u hu
  rw [hmain forest h] at hu ⊢
  exact List.count_eq_one_of_mem hnodup hu

/-- C2 witness: the amended statement at the concrete example forest. -/
theorem c2_witness :
    parse_users_tree (renderDoc exForest) = flattenL none exForest :=
  c2_tree_reconstruction.1 exForest (by decide)

/-- C7: user upsert is idempotent (the same upsert applied twice gives the
same table as applied once), and ingesting a reconstructed tree fact list
twice leaves the stored user table identical to ingesting it once. -/
theorem c7_upsert_and_ingest_idempotent :
    (∀ (t : UserTable) (username : String) (karma : Option Int)
        (about created_at inv gh tw web scr : Option String),
      upsert_user
          (upsert_user t username karma about created_at inv gh tw web scr)
          username karma about created_at inv gh tw web scr
        = upsert_user t username karma about created_at inv gh tw web scr)
    ∧ (∀ (t : UserTable) (doc : NodeList),
      ingestFacts (ingestFacts t (parse_users_tree doc)) (parse_users_tree doc)
        = ingestFacts t (parse_users_tree doc)) :=
  ⟨upsert_user_idem, fun t doc => ingestFacts_idem (parse_users_tree doc) t⟩

end Lob
